import Mathlib

/-!
# Verification of the BOS multipart upload transport

A shallow embedding of `src/uploader/multi_transport.js` (class `MultiTransport`),
together with proofs of the specification's claims about it.

JavaScript numbers are IEEE doubles; all quantities handled by this module
(file sizes, part counts, offsets, epoch milliseconds) are integers far below
2^53, where double arithmetic is exact, so they are modelled as `Nat`/`Int`.
The one place where non-finite values arise (`totalSize / (maxParts -
orderedParts.length)` with a zero or negative divisor) is modelled explicitly
by the `JNum` type below, which carries the `Infinity` and `NaN` cases.
-/

namespace MultiTransport

/-- `const kPartSize = 20 * 1024 * 1024;` — the baseline chunk size (20 MiB). -/
def kPartSize : Nat := 20 * 1024 * 1024

/-- Modelled from the spec: the origin tag (`TransportOrigin` imported from
`src/headers.js`, a file not included here) marking objects produced by this
transport mechanism.  Its concrete string value is never inspected by the
transport — only compared for equality — so any fixed value is faithful. -/
def TransportOrigin : String := "transport-origin"

/-- A part descriptor pushed by `_decompose`:
`{partNumber, partSize, start: offset}`. -/
structure Part where
  partNumber : Nat
  partSize : Nat
  start : Nat
deriving Repr, DecidableEq

/-- An already-accepted part as returned by `listParts`:
`{partNumber, size}` (the only fields the module reads). -/
structure PriorPart where
  partNumber : Nat
  size : Nat
deriving Repr, DecidableEq

/-- Ceiling division on naturals: `⌈a / b⌉` for `b > 0` (junk at `b = 0`,
which is never used — the zero-divisor case goes through `JNum` instead). -/
def ceilDiv (a b : Nat) : Nat := (a + b - 1) / b

/-- The fragment of JavaScript number semantics needed by `_decompose`:
a finite (exact) integer, `Infinity`, or `NaN`. -/
inductive JNum where
  | fin : Int → JNum
  | inf : JNum
  | nan : JNum
deriving Repr, DecidableEq

/-- `Math.ceil(totalSize / d)` where `d = maxParts - orderedParts.length` may
be positive, zero or negative:
* `d > 0`: exact ceiling division;
* `d = 0`: JS division yields `Infinity` (or `NaN` for `0/0`), and
  `Math.ceil` preserves both;
* `d < 0`: the quotient is `≤ 0` and its ceiling is `-(totalSize / |d|)`
  (floor division negated). -/
def minPartSize (totalSize : Nat) (d : Int) : JNum :=
  if 0 < d then .fin (ceilDiv totalSize d.toNat)
  else if d = 0 then (if totalSize = 0 then .nan else .inf)
  else .fin (-(totalSize / d.natAbs : Nat))

/-- `Math.max` on the `JNum` fragment: `NaN` is absorbing, then `Infinity`. -/
def jmax : JNum → JNum → JNum
  | .nan, _ => .nan
  | _, .nan => .nan
  | .inf, _ => .inf
  | _, .inf => .inf
  | .fin a, .fin b => .fin (max a b)

/-- `const averagePartSize = Math.max(kPartSize, minPartSize);` -/
def averagePartSize (totalSize : Nat) (numOrdered maxParts : Nat) : JNum :=
  jmax (.fin kPartSize) (minPartSize totalSize ((maxParts : Int) - (numOrdered : Int)))

/-- The `while (leftSize > 0)` carving loop of `_decompose`:
`partSize = Math.min(leftSize, averagePartSize)`, push
`{partNumber, partSize, start: offset}`, then advance.
With `avg = .inf`, `Math.min` returns `leftSize` (one final part);
with `avg = .fin a`, it returns `min leftSize a`.
The `partSize = 0` guard covers `a ≤ 0`, on which the JS loop would never
terminate; `averagePartSize` is always `≥ kPartSize` in its finite case
(proved below), so that branch is unreachable from `_decompose`.
The `avg = .nan` case (`Math.min` returns `NaN`, one junk iteration, then
`NaN > 0` is false) only arises for `totalSize = 0`, where the loop body
never runs; it is modelled as a single zero-size part. -/
def carve (avg : JNum) (leftSize offset partNumber : Nat) : List Part :=
  if _h : leftSize = 0 then []
  else
    match avg with
    | .inf => [⟨partNumber, leftSize, offset⟩]
    | .nan => [⟨partNumber, 0, offset⟩]
    | .fin a =>
      let partSize := min leftSize a.toNat
      if _h2 : partSize = 0 then []
      else ⟨partNumber, partSize, offset⟩ ::
        carve (.fin a) (leftSize - partSize) (offset + partSize) (partNumber + 1)
termination_by leftSize
decreasing_by
  simp only [partSize] at *
  omega

/-- `_decompose(orderedParts, maxParts, uploadSize, totalSize)`:
computes the effective part size and carves the remaining
`totalSize - uploadSize` bytes starting at offset `uploadSize`, numbering
parts from `orderedParts.length + 1`. -/
def _decompose (orderedParts : List PriorPart) (maxParts uploadSize totalSize : Nat) :
    List Part :=
  carve (averagePartSize totalSize orderedParts.length maxParts)
    (totalSize - uploadSize) uploadSize (orderedParts.length + 1)

/-! ## Throwables and the unified error handler -/

/-- The fields of a generic thrown object that `_checkError` and the
`_checkConsistency` catch block inspect: `message` (present iff
`typeof err.message === 'string'`) and `status_code`
(present iff `'status_code' in err`). -/
structure JsObjFields where
  message : Option String
  status_code : Option Int
deriving Repr, DecidableEq

/-- The shapes of JavaScript throwables distinguished by the module:
a thrown string, an `Error` instance (which always has a string `message`,
and for SDK errors may carry a `status_code`), or any other object. -/
inductive JsThrowable where
  | str : String → JsThrowable
  | errorInst : String → Option Int → JsThrowable
  | obj : JsObjFields → JsThrowable
deriving Repr, DecidableEq

/-- `ex.status_code` as read by the `_checkConsistency` catch block
(`undefined` when the field is absent). -/
def statusCode : JsThrowable → Option Int
  | .str _ => none
  | .errorInst _ c => c
  | .obj o => o.status_code

/-- The error string `_checkError` emits, by the shape of the throwable:
a string is surfaced verbatim; an `Error` instance or an object with a
string `message` is surfaced as its message; otherwise a `status_code`
bearer becomes `Server code = <code>`; anything else the fixed generic
message `未知错误` ("unknown error"). -/
def errorMessage : JsThrowable → String
  | .str s => s
  | .errorInst m _ => m
  | .obj o =>
    match o.message with
    | some m => m
    | none =>
      match o.status_code with
      | some c => "Server code = " ++ toString c
      | none => "未知错误"

/-- Lifecycle notifications emitted to the event sink (payload fields other
than the error string carry only correlation data and are omitted). -/
inductive TEvent where
  | start : TEvent
  | pause : TEvent
  | finish : TEvent
  | error : String → TEvent
deriving Repr, DecidableEq

/-- `_checkFinish()`: when `_paused` is already true emit `pause`;
otherwise set `_paused = true` and emit `finish`.
Returns the new `_paused` flag and the emitted event. -/
def _checkFinish (paused : Bool) : Bool × TEvent :=
  if paused then (paused, .pause) else (true, .finish)

/-- `_checkError(err)`: when `_paused` is already true emit `pause`;
otherwise set `_paused = true` and emit `error` with the message determined
by the throwable's shape. Returns the new `_paused` flag and the event. -/
def _checkError (paused : Bool) (err : JsThrowable) : Bool × TEvent :=
  if paused then (paused, .pause) else (true, .error (errorMessage err))

/-! ## Content hash and consistency check -/

/-- JavaScript truthiness of a possibly-absent string header or cache field
(`undefined` and the empty string are falsy). -/
def strTruthy : Option String → Bool
  | none => false
  | some s => s ≠ ""

/-- The guard `!size < 4 * 1024 * 1024 * 1024` of `_computedFileMD5`.
In JavaScript `!` binds tighter than `<`, so this is `(!size) < 4 GiB`:
the boolean `!size` coerces to `1` (for `size = 0`) or `0`, both of which
are below 4 GiB — the guard is true for every size. -/
def jsSizeGuard (size : Nat) : Bool :=
  (if size = 0 then (1 : Nat) else 0) < 4 * 1024 * 1024 * 1024

/-- `_computedFileMD5()`: when `this._md5sum` is falsy and the size guard
holds, stream the file through the hasher (`fileMD5` is the hasher's digest
for the current file content) and cache it; the returned value is the cache
after the call. -/
def _computedFileMD5 (md5sum : Option String) (size : Nat) (fileMD5 : String) :
    Option String :=
  if ¬strTruthy md5sum ∧ jsSizeGuard size then some fileMD5 else md5sum

/-- Local file stat: `fs.statSync` yields `size` and `mtime`
(`mtime.getTime()` is integer epoch milliseconds). -/
structure LocalStat where
  mtimeMs : Int
  size : Nat
deriving Repr, DecidableEq

/-- The record `_fetchMetadata` builds from the `getObjectMetadata` response
headers: `xMetaSize = +content-length` (always present), `xMetaFrom` and
`xMetaMD5` raw optional header strings, and `xMetaModifiedTime = +header`
where `none` models the `NaN` produced by an absent header (`NaN` compares
unequal to every number, which `Option Int` equality reproduces). -/
structure RemoteMeta where
  xMetaSize : Nat
  xMetaFrom : Option String
  xMetaModifiedTime : Option Int
  xMetaMD5 : Option String
deriving Repr, DecidableEq

/-- `_checkConsistency()`, with the metadata fetch outcome passed in
(`fetch`), the current `this._md5sum` cache, and the hasher's digest of the
local file (`fileMD5`). Returns the decision — `.error` when the exception
is re-thrown — and the `_md5sum` cache after the call.
A fetch failure with `status_code === 404` yields `false`; sizes are
compared first; for objects carrying this transport's origin tag a truthy
remote MD5 is compared against the locally computed hash, an absent (or
falsy) remote MD5 falls back to the modification-time comparison; foreign
or untagged objects are trusted on size alone. -/
def _checkConsistency (stat : LocalStat) (md5sum : Option String)
    (fileMD5 : String) (fetch : Except JsThrowable RemoteMeta) :
    Except JsThrowable Bool × Option String :=
  match fetch with
  | .error ex =>
    if statusCode ex = some 404 then (.ok false, md5sum) else (.error ex, md5sum)
  | .ok meta =>
    if stat.size = meta.xMetaSize then
      if meta.xMetaFrom = some TransportOrigin then
        if strTruthy meta.xMetaMD5 then
          let newSum := _computedFileMD5 md5sum stat.size fileMD5
          if meta.xMetaMD5 ≠ newSum then (.ok false, newSum) else (.ok true, newSum)
        else
          if some stat.mtimeMs ≠ meta.xMetaModifiedTime then (.ok false, md5sum)
          else (.ok true, md5sum)
      else (.ok true, md5sum)
    else (.ok false, md5sum)

/-! ## Transport state and the `start` sequence -/

/-- The mutable per-instance fields of `MultiTransport` the claims are
about: `_paused`, `_uploadId`, `_md5sum`, `_uploadedSize`, and whether
`this._stream` has been set (a read stream is in flight). -/
structure TState where
  paused : Bool
  uploadId : Option String
  md5sum : Option String
  uploadedSize : Nat
  hasStream : Bool
deriving Repr, DecidableEq

/-- `isPaused()`. -/
def isPaused (st : TState) : Bool := st.paused

/-- `pause()`: set `_paused = true`; when a stream is in flight emit
`abort` into it (the pause notification then arrives later, through the
queue's error path and `_checkError`), otherwise emit `pause` directly.
Returns the new state and the directly emitted event, if any. -/
def pause (st : TState) : TState × Option TEvent :=
  if st.hasStream then ({st with paused := true}, none)
  else ({st with paused := true}, some .pause)

/-- `resume(remainParts)` drives the sequential queue; it writes
`_uploadedSize` (incremented once per acknowledged part) but never writes
`_paused`. `k` is the number of parts acknowledged before the queue drained
or errored. -/
def resume (st : TState) (remainParts : List Part) (k : Nat) : TState :=
  {st with uploadedSize :=
    st.uploadedSize + ((remainParts.take k).map Part.partSize).sum}

/-- The Storage Client methods, in the order `start` may invoke them. -/
inductive ClientCall where
  | getObjectMetadata
  | initiateMultipartUpload
  | listParts
  | putPart
  | completeMultipartUpload
deriving Repr, DecidableEq

/-- The `{parts, maxParts}` body returned by `listParts`. -/
structure PartsInfo where
  parts : List PriorPart
  maxParts : Nat
deriving Repr, DecidableEq

/-- The environment `start` runs against: the file system's answers and the
outcome of each Storage Client call, in program order. `putAttempts` is the
number of put-part requests issued before the queue errored (used only on
the `resumeResult = .error` path). -/
structure Env where
  fileExists : Bool
  stat : LocalStat
  fileMD5 : String
  fetchMeta : Except JsThrowable RemoteMeta
  initResult : Except JsThrowable String
  listResult : Except JsThrowable PartsInfo
  resumeResult : Except JsThrowable Unit
  putAttempts : Nat
  listResult2 : Except JsThrowable PartsInfo
  completeResult : Except JsThrowable Unit

/-- The observable outcome of a `start` invocation: the final field state,
the lifecycle events emitted, and the Storage Client calls issued. -/
structure StartOutcome where
  state : TState
  events : List TEvent
  calls : List ClientCall
deriving Repr, DecidableEq

/-- `await this._completeUpload(); this._checkFinish();` — the tail of
`start`'s try block: a second `listParts`, the md5 computation (with its
cache update), the `completeMultipartUpload` call, then `_checkFinish`.
The second component is the pending exception for the catch block. -/
def completePhase (st : TState) (env : Env) (calls : List ClientCall)
    (evs : List TEvent) : StartOutcome × Option JsThrowable :=
  match env.listResult2 with
  | .error ex => (⟨st, evs, calls ++ [.listParts]⟩, some ex)
  | .ok _ =>
    let st1 := {st with md5sum := _computedFileMD5 st.md5sum env.stat.size env.fileMD5}
    match env.completeResult with
    | .error ex => (⟨st1, evs, calls ++ [.listParts, .completeMultipartUpload]⟩, some ex)
    | .ok _ =>
      let (p, ev) := _checkFinish st1.paused
      (⟨{st1 with paused := p}, evs ++ [ev],
        calls ++ [.listParts, .completeMultipartUpload]⟩, none)

/-- The part of `start`'s try block from `this._fetchParts()` on: list the
accepted parts, sum their sizes into `_uploadedSize`, decompose the
remainder, and when parts remain emit `start` and drive the queue
(one put-part request per attempted part). -/
def afterInit (st : TState) (env : Env) (size : Nat) (calls0 : List ClientCall) :
    StartOutcome × Option JsThrowable :=
  match env.listResult with
  | .error ex => (⟨st, [], calls0 ++ [.listParts]⟩, some ex)
  | .ok info =>
    let orderedParts := info.parts.mergeSort (fun l r => l.partNumber ≤ r.partNumber)
    let uploadedSize := (info.parts.map PriorPart.size).sum
    let st1 := {st with uploadedSize := uploadedSize}
    let remainParts := _decompose orderedParts info.maxParts uploadedSize size
    let calls1 := calls0 ++ [.listParts]
    if remainParts.length > 0 then
      match env.resumeResult with
      | .ok _ =>
        completePhase (resume st1 remainParts remainParts.length) env
          (calls1 ++ List.replicate remainParts.length .putPart) [.start]
      | .error ex =>
        (⟨resume st1 remainParts env.putAttempts, [.start],
          calls1 ++ List.replicate env.putAttempts .putPart⟩, some ex)
    else
      completePhase st1 env calls1 []

/-- `start`'s try block. When `this._uploadId` is absent, run the
consistency check first (finishing early when consistent) and initiate the
multipart session; then proceed to the part listing. -/
def startTry (st : TState) (env : Env) : StartOutcome × Option JsThrowable :=
  match st.uploadId with
  | none =>
    let (res, newSum) := _checkConsistency env.stat st.md5sum env.fileMD5 env.fetchMeta
    let st1 := {st with md5sum := newSum}
    match res with
    | .error ex => (⟨st1, [], [.getObjectMetadata]⟩, some ex)
    | .ok true =>
      let (p, ev) := _checkFinish st1.paused
      (⟨{st1 with paused := p}, [ev], [.getObjectMetadata]⟩, none)
    | .ok false =>
      match env.initResult with
      | .error ex => (⟨st1, [], [.getObjectMetadata, .initiateMultipartUpload]⟩, some ex)
      | .ok uploadId =>
        afterInit {st1 with uploadId := some uploadId} env env.stat.size
          [.getObjectMetadata, .initiateMultipartUpload]
  | some _ => afterInit st env env.stat.size []

/-- `start()`: reset `_paused` to `false` as the first step; surface a
missing local file through `_checkError` before any Storage Client call
(the message interpolates the undefined property `this.localPath` — the
field is `_localPath` — so it reads `file not found undefined`); otherwise
run the try block with the catch routing any exception to `_checkError`. -/
def start (st0 : TState) (env : Env) : StartOutcome :=
  let st := {st0 with paused := false}
  if env.fileExists then
    match startTry st env with
    | (out, none) => out
    | (out, some ex) =>
      let (p, ev) := _checkError out.state.paused ex
      ⟨{out.state with paused := p}, out.events ++ [ev], out.calls⟩
  else
    let (p, ev) := _checkError st.paused (.errorInst "file not found undefined" none)
    ⟨{st with paused := p}, [ev], []⟩

/-! ## Arithmetic of ceiling division -/

theorem ceilDiv_zero_left (b : Nat) : ceilDiv 0 b = 0 := by
  unfold ceilDiv
  rcases Nat.eq_zero_or_pos b with hb | hb
  · simp [hb]
  · exact Nat.div_eq_of_lt (by omega)

theorem ceilDiv_eq_one {l b : Nat} (h0 : 0 < l) (hle : l ≤ b) :
    ceilDiv l b = 1 := by
  unfold ceilDiv
  exact Nat.div_eq_of_lt_le (by omega) (by omega)

theorem ceilDiv_sub {l b : Nat} (hb : 0 < b) (h : b < l) :
    ceilDiv l b = ceilDiv (l - b) b + 1 := by
  unfold ceilDiv
  have heq : l + b - 1 = ((l - b) + b - 1) + b := by omega
  rw [heq, Nat.add_div_right _ hb]

theorem ceilDiv_le_iff {b : Nat} (hb : 0 < b) (a k : Nat) :
    ceilDiv a b ≤ k ↔ a ≤ k * b := by
  unfold ceilDiv
  rw [← Nat.lt_succ_iff, Nat.div_lt_iff_lt_mul hb, Nat.succ_mul]
  omega

theorem le_ceilDiv_mul {b : Nat} (hb : 0 < b) (a : Nat) :
    a ≤ ceilDiv a b * b :=
  (ceilDiv_le_iff hb a (ceilDiv a b)).mp le_rfl

theorem ceilDiv_le_ceilDiv_left {a b : Nat} (h : a ≤ b) (c : Nat) :
    ceilDiv a c ≤ ceilDiv b c := by
  unfold ceilDiv
  exact Nat.div_le_div_right (by omega)

theorem ceilDiv_le_ceilDiv_right {b c : Nat} (hb : 0 < b) (h : b ≤ c) (a : Nat) :
    ceilDiv a c ≤ ceilDiv a b := by
  rw [ceilDiv_le_iff (by omega) a]
  calc a ≤ ceilDiv a b * b := le_ceilDiv_mul hb a
    _ ≤ ceilDiv a b * c := Nat.mul_le_mul_left _ h

theorem ceilDiv_ceilDiv_le {t d : Nat} (hd : 0 < d) :
    ceilDiv t (ceilDiv t d) ≤ d := by
  rcases Nat.eq_zero_or_pos t with ht | ht
  · subst ht; rw [ceilDiv_zero_left]; simp [ceilDiv]
  · have hc : 0 < ceilDiv t d := by
      by_contra hc
      have : ceilDiv t d = 0 := by omega
      have := (ceilDiv_le_iff hd t 0).mp (by omega)
      omega
    rw [ceilDiv_le_iff hc t, mul_comm]
    exact le_ceilDiv_mul hd t

theorem lt_of_lt_ceilDiv {i l b : Nat} (hb : 0 < b) (h : i < ceilDiv l b) :
    i * b < l := by
  by_contra hc
  have := (ceilDiv_le_iff hb l i).mpr (by omega)
  omega

theorem kPartSize_pos : 0 < kPartSize := by decide

/-! ## Closed forms of the carving loop -/

theorem carve_zero (avg : JNum) (off pn : Nat) : carve avg 0 off pn = [] := by
  rw [carve.eq_def]
  simp

theorem carve_inf_eq (l off pn : Nat) (hl : 0 < l) :
    carve .inf l off pn = [⟨pn, l, off⟩] := by
  rw [carve.eq_def]
  rw [dif_neg (by omega)]

/-- Closed form of the carving loop for a finite positive average part
size: part `i` starts at `off + i * A` and has size `min (l - i * A) A`. -/
theorem carve_fin_eq (a : Int) (ha : 0 < a) (l off pn : Nat) :
    carve (.fin a) l off pn =
      (List.range (ceilDiv l a.toNat)).map
        (fun i => ⟨pn + i, min (l - i * a.toNat) a.toNat, off + i * a.toNat⟩) := by
  have ht : 0 < a.toNat := by omega
  induction l using Nat.strong_induction_on generalizing off pn with
  | _ l ih =>
    rcases Nat.eq_zero_or_pos l with hl | hl
    · subst hl
      rw [carve_zero, ceilDiv_zero_left]
      simp
    · rw [carve.eq_def]
      rw [dif_neg (by omega)]
      simp only
      rw [dif_neg (by omega : ¬ (min l a.toNat = 0))]
      rcases le_or_lt l a.toNat with hle | hlt
      · simp only [Nat.min_eq_left hle, Nat.sub_self, carve_zero,
          ceilDiv_eq_one hl hle]
        norm_num [List.range_succ, Nat.min_eq_left hle]
      · simp only [Nat.min_eq_right (Nat.le_of_lt hlt)]
        rw [ih (l - a.toNat) (by omega) (off + a.toNat) (pn + 1)]
        rw [ceilDiv_sub ht hlt, List.range_succ_eq_map, List.map_cons, List.map_map]
        congr 1
        · simp
          omega
        · apply List.map_congr_left
          intro i _
          simp only [Function.comp_apply, Nat.succ_eq_add_one]
          have h1 : (i + 1) * a.toNat = i * a.toNat + a.toNat := by
            rw [Nat.add_mul]; omega
          simp only [h1, Part.mk.injEq]
          refine ⟨by omega, ?_, by omega⟩
          congr 1
          omega

/-! ## Characterization of the effective part size -/

theorem averagePartSize_of_lt {n m : Nat} (h : n < m) (total : Nat) :
    averagePartSize total n m =
      .fin ((max kPartSize (ceilDiv total (m - n)) : Nat) : Int) := by
  unfold averagePartSize minPartSize jmax
  rw [if_pos (by omega : (0:Int) < (m:Int) - n)]
  have hd : ((m:Int) - n).toNat = m - n := by omega
  rw [hd]
  simp only [JNum.fin.injEq]
  push_cast
  rfl

theorem averagePartSize_of_gt {n m : Nat} (h : m < n) (total : Nat) :
    averagePartSize total n m = .fin ((kPartSize : Nat) : Int) := by
  unfold averagePartSize minPartSize jmax
  rw [if_neg (by omega : ¬ (0:Int) < (m:Int) - n), if_neg (by omega : ¬ ((m:Int) - n) = 0)]
  simp only [JNum.fin.injEq]
  rw [max_eq_left]
  have := Int.natCast_nonneg (total / ((m:Int) - n).natAbs)
  omega

theorem averagePartSize_of_eq_pos {n m total : Nat} (h : m = n) (ht : 0 < total) :
    averagePartSize total n m = .inf := by
  unfold averagePartSize minPartSize jmax
  rw [if_neg (by omega : ¬ (0:Int) < (m:Int) - n), if_pos (by omega : ((m:Int) - n) = 0),
    if_neg (by omega : ¬ total = 0)]

theorem averagePartSize_of_eq_zero {n m total : Nat} (h : m = n) (ht : total = 0) :
    averagePartSize total n m = .nan := by
  unfold averagePartSize minPartSize jmax
  rw [if_neg (by omega : ¬ (0:Int) < (m:Int) - n), if_pos (by omega : ((m:Int) - n) = 0),
    if_pos ht]

/-- Master closed form: for `uploadSize ≤ totalSize` and any part budget,
`_decompose` carves with some positive effective part size `A`, which under
a positive remaining budget is `max kPartSize ⌈totalSize / budget⌉`. -/
theorem decompose_eq (parts : List PriorPart) (maxParts up total : Nat)
    (hup : up ≤ total) :
    ∃ A : Nat, 0 < A ∧
      (parts.length < maxParts →
        A = max kPartSize (ceilDiv total (maxParts - parts.length))) ∧
      _decompose parts maxParts up total =
        (List.range (ceilDiv (total - up) A)).map
          (fun i => ⟨parts.length + 1 + i, min ((total - up) - i * A) A, up + i * A⟩) := by
  unfold _decompose
  rcases lt_trichotomy parts.length maxParts with hc | hc | hc
  · refine ⟨max kPartSize (ceilDiv total (maxParts - parts.length)),
      lt_of_lt_of_le kPartSize_pos (le_max_left _ _), fun _ => rfl, ?_⟩
    rw [averagePartSize_of_lt hc]
    rw [carve_fin_eq _ (by exact_mod_cast lt_of_lt_of_le kPartSize_pos (le_max_left _ _))]
    rw [Int.toNat_natCast]
  · rcases Nat.eq_zero_or_pos total with h0 | h0
    · refine ⟨kPartSize, kPartSize_pos, fun hlt => absurd hlt (by omega), ?_⟩
      have hl : total - up = 0 := by omega
      rw [hl, carve_zero, ceilDiv_zero_left]
      simp
    · by_cases hl : total - up = 0
      · refine ⟨kPartSize, kPartSize_pos, fun hlt => absurd hlt (by omega), ?_⟩
        rw [hl, carve_zero, ceilDiv_zero_left]
        simp
      · refine ⟨total - up, by omega, fun hlt => absurd hlt (by omega), ?_⟩
        rw [averagePartSize_of_eq_pos hc.symm h0, carve_inf_eq _ _ _ (by omega)]
        rw [ceilDiv_eq_one (by omega) le_rfl]
        norm_num [List.range_succ]
  · refine ⟨kPartSize, kPartSize_pos, fun hlt => absurd hlt (by omega), ?_⟩
    rw [averagePartSize_of_gt hc]
    rw [carve_fin_eq _ (by exact_mod_cast kPartSize_pos)]
    simp [Int.toNat_natCast]

/-! ## Theorems about part decomposition -/

theorem carve_fin_sum (a : Int) (ha : 0 < a) (l off pn : Nat) :
    ((carve (.fin a) l off pn).map Part.partSize).sum = l := by
  have ht : 0 < a.toNat := by omega
  induction l using Nat.strong_induction_on generalizing off pn with
  | _ l ih =>
    rcases Nat.eq_zero_or_pos l with hl | hl
    · subst hl; rw [carve_zero]; simp
    · rw [carve.eq_def, dif_neg (by omega)]
      simp only
      rw [dif_neg (by omega : ¬ (min l a.toNat = 0))]
      simp only [List.map_cons, List.sum_cons]
      rw [ih (l - min l a.toNat) (by omega) (off + min l a.toNat) (pn + 1)]
      omega

theorem carve_fin_pos (a : Int) (ha : 0 < a) (l off pn : Nat) :
    ∀ p ∈ carve (.fin a) l off pn, 0 < p.partSize := by
  have ht : 0 < a.toNat := by omega
  induction l using Nat.strong_induction_on generalizing off pn with
  | _ l ih =>
    rcases Nat.eq_zero_or_pos l with hl | hl
    · subst hl; rw [carve_zero]; simp
    · rw [carve.eq_def, dif_neg (by omega)]
      simp only
      rw [dif_neg (by omega : ¬ (min l a.toNat = 0))]
      intro p hp
      rcases List.mem_cons.mp hp with hp | hp
      · subst hp; simp; omega
      · exact ih (l - min l a.toNat) (by omega) _ _ p hp

theorem list_length_le_sum (L : List Nat) (h : ∀ x ∈ L, 1 ≤ x) :
    L.length ≤ L.sum := by
  induction L with
  | nil => simp
  | cons x xs ih =>
    simp only [List.length_cons, List.sum_cons]
    have := h x (List.mem_cons_self x xs)
    have := ih (fun y hy => h y (List.mem_cons_of_mem x hy))
    omega

theorem decompose_sum (parts : List PriorPart) (maxParts up total : Nat)
    (hup : up ≤ total) :
    ((_decompose parts maxParts up total).map Part.partSize).sum = total - up := by
  unfold _decompose
  rcases lt_trichotomy parts.length maxParts with hc | hc | hc
  · rw [averagePartSize_of_lt hc,
      carve_fin_sum _ (by exact_mod_cast lt_of_lt_of_le kPartSize_pos (le_max_left _ _))]
  · by_cases hl : total - up = 0
    · rw [hl, carve_zero]; simp
    · rw [averagePartSize_of_eq_pos hc.symm (by omega), carve_inf_eq _ _ _ (by omega)]
      simp
  · rw [averagePartSize_of_gt hc, carve_fin_sum _ (by exact_mod_cast kPartSize_pos)]

theorem decompose_pos (parts : List PriorPart) (maxParts up total : Nat)
    (hup : up ≤ total) :
    ∀ p ∈ _decompose parts maxParts up total, 0 < p.partSize := by
  unfold _decompose
  rcases lt_trichotomy parts.length maxParts with hc | hc | hc
  · rw [averagePartSize_of_lt hc]
    exact carve_fin_pos _ (by exact_mod_cast lt_of_lt_of_le kPartSize_pos (le_max_left _ _)) _ _ _
  · by_cases hl : total - up = 0
    · rw [hl, carve_zero]; simp
    · rw [averagePartSize_of_eq_pos hc.symm (by omega), carve_inf_eq _ _ _ (by omega)]
      simp
      omega
  · rw [averagePartSize_of_gt hc]
    exact carve_fin_pos _ (by exact_mod_cast kPartSize_pos) _ _ _

/-! ## Supporting lemmas for the error handler, hash guard and state machine -/

/-- The `(!size) < 4 GiB` guard of `_computedFileMD5` holds for every size:
`!size` coerces to `0` or `1`, both below 4 GiB. -/
theorem jsSizeGuard_always_true : ∀ size : Nat, jsSizeGuard size = true := by
  intro size
  unfold jsSizeGuard
  split <;> decide

theorem completePhase_paused (st : TState) (env : Env) (calls : List ClientCall)
    (evs : List TEvent) (h : st.paused = false) :
    ((completePhase st env calls evs).2 = none →
      (completePhase st env calls evs).1.state.paused = true) ∧
    ((completePhase st env calls evs).2 ≠ none →
      (completePhase st env calls evs).1.state.paused = false) := by
  unfold completePhase
  rcases env.listResult2 with e | i
  · simp [h]
  · rcases env.completeResult with e | u
    · simp [h]
    · simp [_checkFinish, h]

theorem afterInit_paused (st : TState) (env : Env) (size : Nat)
    (calls0 : List ClientCall) (h : st.paused = false) :
    ((afterInit st env size calls0).2 = none →
      (afterInit st env size calls0).1.state.paused = true) ∧
    ((afterInit st env size calls0).2 ≠ none →
      (afterInit st env size calls0).1.state.paused = false) := by
  unfold afterInit
  rcases env.listResult with e | info
  · simp [h]
  · dsimp only
    split
    · rcases env.resumeResult with e | u
      · dsimp only
        constructor
        · intro hc
          exact absurd hc (by simp)
        · intro _
          simp [resume, h]
      · exact completePhase_paused _ _ _ _ (by simp [resume, h])
    · exact completePhase_paused _ _ _ _ (by simp [h])

theorem startTry_paused (st : TState) (env : Env) (h : st.paused = false) :
    ((startTry st env).2 = none → (startTry st env).1.state.paused = true) ∧
    ((startTry st env).2 ≠ none → (startTry st env).1.state.paused = false) := by
  unfold startTry
  rcases hu : st.uploadId with _ | uid
  · dsimp only
    rcases _checkConsistency env.stat st.md5sum env.fileMD5 env.fetchMeta
      with ⟨res, newSum⟩
    dsimp only
    rcases res with e | b
    · simp [h]
    · rcases b with _ | _
      · dsimp only
        rcases env.initResult with e | uid2
        · simp [h]
        · exact afterInit_paused _ _ _ _ (by simp [h])
      · simp [_checkFinish, h]
  · exact afterInit_paused _ _ _ _ h

/-! ## The claims -/

/-- Claim C1 (refuted by the code — code bug): the spec says the streaming
MD5 is computed only for files below 4 GiB and skipped at or above it, and
the source's own comment (`如果文件小于4G,则算下md5`) says the same; but the
guard `!size < 4 * 1024 * 1024 * 1024` parses as `(!size) < 4 GiB`, which is
true for every size, so at exactly 4 GiB (with an empty cache) the hash IS
computed and cached. -/
theorem computedFileMD5_hashes_4GiB :
    jsSizeGuard (4 * 1024 * 1024 * 1024) = true ∧
    _computedFileMD5 none (4 * 1024 * 1024 * 1024) "0123456789abcdef" =
      some "0123456789abcdef" := by
  constructor
  · decide
  · rfl

/-- Claim C2: with `uploadSize ≤ totalSize` and a strictly positive
remaining part budget, `_decompose` returns at most
`maxParts - orderedParts.length` parts, and every part except possibly the
last has size exactly `max kPartSize ⌈totalSize / (maxParts - length)⌉`
(hence at least the 20 MiB baseline). -/
theorem decompose_part_budget (orderedParts : List PriorPart)
    (maxParts uploadSize totalSize : Nat)
    (hup : uploadSize ≤ totalSize) (hbudget : orderedParts.length < maxParts) :
    (_decompose orderedParts maxParts uploadSize totalSize).length ≤
        maxParts - orderedParts.length ∧
    ∀ p ∈ (_decompose orderedParts maxParts uploadSize totalSize).dropLast,
      p.partSize = max kPartSize (ceilDiv totalSize (maxParts - orderedParts.length)) ∧
      kPartSize ≤ p.partSize := by
  obtain ⟨A, hA, hAval, hEq⟩ := decompose_eq orderedParts maxParts uploadSize totalSize hup
  have hAdef := hAval hbudget
  constructor
  · rw [hEq]
    simp only [List.length_map, List.length_range]
    rcases Nat.eq_zero_or_pos totalSize with h0 | h0
    · have hl0 : totalSize - uploadSize = 0 := by omega
      rw [hl0, ceilDiv_zero_left]; omega
    · have hc : 0 < ceilDiv totalSize (maxParts - orderedParts.length) := by
        by_contra hcc
        have h1 := (ceilDiv_le_iff (b := maxParts - orderedParts.length)
          (by omega) totalSize 0).mp (by omega)
        omega
      calc ceilDiv (totalSize - uploadSize) A
          ≤ ceilDiv totalSize A := ceilDiv_le_ceilDiv_left (by omega) A
        _ ≤ ceilDiv totalSize (ceilDiv totalSize (maxParts - orderedParts.length)) := by
            apply ceilDiv_le_ceilDiv_right hc
            rw [hAdef]; exact le_max_right _ _
        _ ≤ maxParts - orderedParts.length := ceilDiv_ceilDiv_le (by omega)
  · intro p hp
    rw [hEq] at hp
    obtain ⟨i, hi, hpi⟩ := List.mem_iff_getElem.mp hp
    rw [List.length_dropLast, List.length_map, List.length_range] at hi
    rw [List.getElem_dropLast, List.getElem_map, List.getElem_range] at hpi
    have hsucc : i + 1 < ceilDiv (totalSize - uploadSize) A := by omega
    have hlt := lt_of_lt_ceilDiv hA hsucc
    have hmin : min ((totalSize - uploadSize) - i * A) A = A := by
      apply Nat.min_eq_right
      have : (i + 1) * A = i * A + A := by rw [Nat.add_mul]; omega
      omega
    rw [← hpi]
    simp only [hmin]
    exact ⟨hAdef, hAdef ▸ le_max_left _ _⟩

/-- Witness for C2 at the 45 MiB scenario. -/
theorem decompose_part_budget_witness :
    (0 : Nat) ≤ 45 * 1024 * 1024 ∧ ([] : List PriorPart).length < 1000 ∧
    (_decompose [] 1000 0 (45 * 1024 * 1024)).length ≤
      1000 - ([] : List PriorPart).length :=
  ⟨by decide, by decide,
    (decompose_part_budget [] 1000 0 (45 * 1024 * 1024) (by decide) (by decide)).1⟩

/-- Claim C3: with `uploadSize ≤ totalSize`, the parts returned by
`_decompose` cover exactly the bytes `[uploadSize, totalSize)`: their sizes
sum to `totalSize - uploadSize`, each part starts at `uploadSize` plus the
sizes of the parts before it, and the part numbers are exactly
`orderedParts.length + 1, orderedParts.length + 2, …`. -/
theorem decompose_contiguous (orderedParts : List PriorPart)
    (maxParts uploadSize totalSize : Nat) (hup : uploadSize ≤ totalSize) :
    (((_decompose orderedParts maxParts uploadSize totalSize).map Part.partSize).sum
        = totalSize - uploadSize) ∧
    (∀ i (h : i < (_decompose orderedParts maxParts uploadSize totalSize).length),
      ((_decompose orderedParts maxParts uploadSize totalSize).get ⟨i, h⟩).start =
        uploadSize +
          (((_decompose orderedParts maxParts uploadSize totalSize).take i).map
            Part.partSize).sum) ∧
    (∀ i (h : i < (_decompose orderedParts maxParts uploadSize totalSize).length),
      ((_decompose orderedParts maxParts uploadSize totalSize).get ⟨i, h⟩).partNumber =
        orderedParts.length + 1 + i) := by
  obtain ⟨A, hA, _, hEq⟩ := decompose_eq orderedParts maxParts uploadSize totalSize hup
  refine ⟨decompose_sum _ _ _ _ hup, ?_, ?_⟩
  · intro i h
    rw [List.get_eq_getElem]
    have hi : i < ceilDiv (totalSize - uploadSize) A := by
      rw [hEq, List.length_map, List.length_range] at h; exact h
    have htermA : ∀ j, j + 1 < ceilDiv (totalSize - uploadSize) A →
        min ((totalSize - uploadSize) - j * A) A = A := by
      intro j hj
      apply Nat.min_eq_right
      have hlt := lt_of_lt_ceilDiv hA hj
      have : (j + 1) * A = j * A + A := by rw [Nat.add_mul]; omega
      omega
    rw [List.getElem_of_eq hEq, List.getElem_map, List.getElem_range]
    simp only
    have htake : (((_decompose orderedParts maxParts uploadSize totalSize).take i).map
        Part.partSize).sum = i * A := by
      rw [hEq, ← List.map_take, List.take_range, Nat.min_eq_left (by omega), List.map_map]
      have : ∀ j ∈ List.range i,
          (Part.partSize ∘ fun k =>
            (⟨orderedParts.length + 1 + k,
              min ((totalSize - uploadSize) - k * A) A, uploadSize + k * A⟩ : Part)) j
            = A := by
        intro j hj
        have hji := List.mem_range.mp hj
        simp only [Function.comp_apply]
        exact htermA j (by omega)
      rw [List.map_congr_left this]
      simp [List.map_const', List.sum_replicate, Nat.smul_one_eq_cast]
    rw [htake]
  · intro i h
    rw [List.get_eq_getElem, List.getElem_of_eq hEq, List.getElem_map,
      List.getElem_range]

/-- Witness for C3 at the 45 MiB scenario. -/
theorem decompose_contiguous_witness :
    (0 : Nat) ≤ 45 * 1024 * 1024 ∧
    ((_decompose [] 1000 0 (45 * 1024 * 1024)).map Part.partSize).sum =
      45 * 1024 * 1024 - 0 :=
  ⟨by decide, (decompose_contiguous [] 1000 0 (45 * 1024 * 1024) (by decide)).1⟩

/-- Claim C4: `_checkConsistency` answers `true` exactly when the metadata
fetch succeeded, the stored size equals the local size, and — only when the
remote origin tag equals this transport's tag — either a truthy remote hash
equals the locally computed hash, or the remote carries no (truthy) hash
and the stored modification time equals the local mtime in epoch
milliseconds; a fetch failure with status 404 answers `false` instead of
raising, and any other fetch failure propagates. -/
theorem checkConsistency_spec (stat : LocalStat) (md5sum : Option String)
    (fileMD5 : String) (fetch : Except JsThrowable RemoteMeta) :
    ((_checkConsistency stat md5sum fileMD5 fetch).1 = .ok true ↔
      ∃ meta, fetch = .ok meta ∧ stat.size = meta.xMetaSize ∧
        (meta.xMetaFrom = some TransportOrigin →
          (if strTruthy meta.xMetaMD5 then
            meta.xMetaMD5 = _computedFileMD5 md5sum stat.size fileMD5
          else meta.xMetaModifiedTime = some stat.mtimeMs))) ∧
    (∀ ex, fetch = .error ex → statusCode ex = some 404 →
      (_checkConsistency stat md5sum fileMD5 fetch).1 = .ok false) ∧
    (∀ ex, fetch = .error ex → statusCode ex ≠ some 404 →
      (_checkConsistency stat md5sum fileMD5 fetch).1 = .error ex) := by
  unfold _checkConsistency
  rcases fetch with ex | meta
  · refine ⟨?_, ?_, ?_⟩
    · by_cases h404 : statusCode ex = some 404 <;> simp [h404]
    · intro ex2 hex h404
      cases hex
      simp [h404]
    · intro ex2 hex h404
      cases hex
      simp [h404]
  · refine ⟨?_, ?_, ?_⟩
    · simp only [Except.ok.injEq, exists_eq_left']
      split_ifs <;> simp_all
      exact fun h => absurd h.symm (by assumption)
    · exact fun ex hex => nomatch hex
    · exact fun ex hex => nomatch hex

/-- Witness for C4: a 404 fetch failure answers `ok false`. -/
theorem checkConsistency_spec_witness :
    (_checkConsistency ⟨5, 100⟩ none "m" (.error (.obj ⟨none, some 404⟩))).1 =
      .ok false :=
  (checkConsistency_spec ⟨5, 100⟩ none "m" (.error (.obj ⟨none, some 404⟩))).2.1
    (.obj ⟨none, some 404⟩) rfl rfl

/-- Claim C5: `_checkError` emits `pause` (and no `error`) when the paused
flag is already true, and sets the flag and emits `error` when it is false;
in particular after `pause()` with a stream in flight (which emits no event
directly), the queue error routed through `_checkError` surfaces as a
`pause` notification. -/
theorem checkError_pause_dichotomy (err : JsThrowable) (st : TState)
    (hstream : st.hasStream = true) :
    _checkError true err = (true, .pause) ∧
    _checkError false err = (true, .error (errorMessage err)) ∧
    ((pause st).2 = none ∧ (pause st).1.paused = true ∧
      _checkError (pause st).1.paused err = (true, .pause)) := by
  refine ⟨rfl, rfl, ?_⟩
  simp [pause, hstream, _checkError]

/-- Witness for C5 with an in-flight stream. -/
theorem checkError_pause_dichotomy_witness :
    (⟨false, none, none, 0, true⟩ : TState).hasStream = true ∧
    _checkError true (.str "aborted") = (true, .pause) :=
  ⟨rfl, (checkError_pause_dichotomy (.str "aborted") ⟨false, none, none, 0, true⟩ rfl).1⟩

/-- Claim C6: `start` on a missing local file issues no Storage Client call
and emits exactly one `error` notification whose string begins with
`file not found` (the interpolated path reads `undefined` because the code
reads `this.localPath` instead of `this._localPath`). -/
theorem start_missing_file (st : TState) (env : Env)
    (hmiss : env.fileExists = false) :
    (start st env).calls = [] ∧
    (start st env).events = [.error "file not found undefined"] ∧
    (∃ rest, "file not found undefined" = "file not found " ++ rest) := by
  unfold start
  refine ⟨?_, ?_, "undefined", rfl⟩ <;> simp [hmiss, _checkError, errorMessage]

/-- Witness for C6 against a concrete environment. -/
theorem start_missing_file_witness :
    (start ⟨true, none, none, 0, false⟩
      ⟨false, ⟨0, 0⟩, "", .error (.obj ⟨none, none⟩), .error (.obj ⟨none, none⟩),
        .error (.obj ⟨none, none⟩), .error (.obj ⟨none, none⟩), 0,
        .error (.obj ⟨none, none⟩), .error (.obj ⟨none, none⟩)⟩).calls = [] :=
  (start_missing_file ⟨true, none, none, 0, false⟩ _ rfl).1

/-- Claim C7: the concrete 45 MiB scenario with no prior parts and
`maxParts = 1000` decomposes into three parts of 20 MiB, 20 MiB and 5 MiB
with part numbers 1, 2, 3 at offsets 0, 20 MiB and 40 MiB. -/
theorem decompose_45MiB :
    _decompose [] 1000 0 (45 * 1024 * 1024) =
      [⟨1, 20 * 1024 * 1024, 0⟩,
       ⟨2, 20 * 1024 * 1024, 20 * 1024 * 1024⟩,
       ⟨3, 5 * 1024 * 1024, 40 * 1024 * 1024⟩] := by
  have h1 : averagePartSize (45 * 1024 * 1024) 0 1000 = .fin 20971520 := by
    norm_num [averagePartSize, minPartSize, jmax, ceilDiv, kPartSize]
  unfold _decompose
  simp only [List.length_nil]
  rw [h1, carve_fin_eq _ (by norm_num)]
  decide

/-- Claim C8: the `error` payload emitted by `_checkError` (paused flag
false) is the thrown string verbatim, else the `message` of an `Error`
instance or of any object with a string message, else
`Server code = <status_code>`, else the fixed generic message. -/
theorem checkError_message_taxonomy (s m : String) (c : Int) (sc : Option Int) :
    (_checkError false (.str s)).2 = .error s ∧
    (_checkError false (.errorInst m sc)).2 = .error m ∧
    (_checkError false (.obj ⟨some m, sc⟩)).2 = .error m ∧
    (_checkError false (.obj ⟨none, some c⟩)).2 = .error ("Server code = " ++ toString c) ∧
    (_checkError false (.obj ⟨none, none⟩)).2 = .error "未知错误" :=
  ⟨rfl, rfl, rfl, rfl, rfl⟩

/-- Claim C9: every terminal outcome leaves the paused flag true
(`_checkFinish`, `_checkError` and `pause` all leave it true, and every
`start` run ends with it true); `resume` never touches it, and `start` is
insensitive to the incoming flag because resetting it to false is its first
step. -/
theorem paused_invariant :
    (∀ p, (_checkFinish p).1 = true) ∧
    (∀ p err, (_checkError p err).1 = true) ∧
    (∀ st, (pause st).1.paused = true) ∧
    (∀ st parts k, (resume st parts k).paused = st.paused) ∧
    (∀ st env p, start st env = start {st with paused := p} env) ∧
    (∀ st env, (start st env).state.paused = true) := by
  refine ⟨?_, ?_, ?_, ?_, ?_, ?_⟩
  · intro p
    cases p <;> simp [_checkFinish]
  · intro p err
    cases p <;> simp [_checkError]
  · intro st
    unfold pause
    split <;> rfl
  · intro st parts k
    rfl
  · intro st env p
    rfl
  · intro st env
    unfold start
    rcases hex : env.fileExists with _ | _
    · simp [_checkError]
    · simp only [if_true]
      have hpp := startTry_paused {st with paused := false} env rfl
      rcases hst : startTry {st with paused := false} env with ⟨out, exo⟩
      rw [hst] at hpp
      rcases exo with _ | ex
      · simpa using hpp.1 rfl
      · have hfalse : out.state.paused = false := hpp.2 (by simp)
        simp [_checkError, hfalse]

/-- Claim C10: for every input with `uploadSize ≤ totalSize` — including the
degenerate budgets `maxParts = length` (infinite computed minimum) and
`maxParts < length` (negative computed minimum) — the effective part size
is strictly positive, so every carved part is non-empty (the loop variant
strictly decreases), the parts cover exactly the remaining bytes, and the
list is finite with at most `totalSize - uploadSize` entries. -/
theorem decompose_terminates (orderedParts : List PriorPart)
    (maxParts uploadSize totalSize : Nat) (hup : uploadSize ≤ totalSize) :
    (∀ p ∈ _decompose orderedParts maxParts uploadSize totalSize, 0 < p.partSize) ∧
    ((_decompose orderedParts maxParts uploadSize totalSize).map Part.partSize).sum =
      totalSize - uploadSize ∧
    (_decompose orderedParts maxParts uploadSize totalSize).length ≤
      totalSize - uploadSize := by
  refine ⟨decompose_pos _ _ _ _ hup, decompose_sum _ _ _ _ hup, ?_⟩
  have h1 := decompose_pos orderedParts maxParts uploadSize totalSize hup
  have h3 := list_length_le_sum
    ((_decompose orderedParts maxParts uploadSize totalSize).map Part.partSize)
    (by intro x hx
        obtain ⟨p, hp, rfl⟩ := List.mem_map.mp hx
        exact h1 p hp)
  rw [List.length_map] at h3
  have h2 := decompose_sum orderedParts maxParts uploadSize totalSize hup
  omega

/-- Witness for C10 at a degenerate budget (`maxParts` smaller than the
number of accepted parts). -/
theorem decompose_terminates_witness :
    (10 : Nat) ≤ 100 ∧
    ((_decompose [⟨1, 5⟩, ⟨2, 5⟩, ⟨3, 5⟩] 2 10 100).map Part.partSize).sum =
      100 - 10 :=
  ⟨by decide, (decompose_terminates [⟨1, 5⟩, ⟨2, 5⟩, ⟨3, 5⟩] 2 10 100 (by decide)).2.1⟩

end MultiTransport
